import Mathlib

/-!
Verification of the bioimageio.core description-I/O pipeline against its
natural-language specification.

The repository's visible source is a façade (`bioimageio/core/__init__.py`)
re-exporting `load_description`, `read_description`, `resolve_source`,
`write_description`, `write_package` from an I/O module that is not part of
the visible sources, plus a release-consistency test
(`tests/test_bioimageio_spec_version.py`).  The test and the version-loading
code are embedded here directly from the source; the description pipeline
(parser, validator, writer, package builder) is modelled from the
specification, as marked on each definition.
-/

namespace BioimageioCore

/-! ## Versions

`packaging.version.Version` on a three-component numeric version string
compares release tuples lexicographically.  Both the release-consistency
test and the parser's version ceiling use this order. -/

/-- A three-component numeric version `major.minor.patch`. -/
abbrev Version3 := Nat × Nat × Nat

/-- Strict lexicographic order on three-component versions, as
`packaging.version.Version.__lt__` computes on numeric release tuples. -/
def versionLt : Version3 → Version3 → Bool
  | (a1, b1, c1), (a2, b2, c2) =>
    decide (a1 < a2) ||
      (decide (a1 = a2) && (decide (b1 < b2) || (decide (b1 = b2) && decide (c1 < c2))))

/-- Non-strict lexicographic order on three-component versions. -/
def versionLe (x y : Version3) : Bool := versionLt x y || decide (x = y)

/-- `x >= y` on versions, as the test's `pinned >= released` computes it. -/
def versionGe (x y : Version3) : Bool := versionLe y x

/-! ## Python string primitives

The test manipulates strings with `str.split(".")`, `str.startswith` and
slicing.  These are embedded over character lists so that every operation
reduces in the kernel. -/

/-- Helper for `splitDots`: `cur` holds the reversed characters of the piece
being accumulated. -/
def splitDotsAux (cur : List Char) : List Char → List (List Char)
  | [] => [cur.reverse]
  | c :: cs => if c = '.' then cur.reverse :: splitDotsAux [] cs else splitDotsAux (c :: cur) cs

/-- `s.split(".")` as Python computes it: separators delimit pieces and empty
pieces are kept. -/
def splitDots (s : String) : List String :=
  (splitDotsAux [] s.data).map (fun cs => String.mk cs)

/-- The numeric value of a decimal digit character, if it is one. -/
def digitVal? (c : Char) : Option Nat :=
  if 48 ≤ c.toNat ∧ c.toNat ≤ 57 then some (c.toNat - 48) else none

/-- Fold a digit string into a number; `none` on any non-digit. -/
def digitsToNatAux (acc : Nat) : List Char → Option Nat
  | [] => some acc
  | c :: cs =>
    match digitVal? c with
    | some d => digitsToNatAux (acc * 10 + d) cs
    | none => none

/-- A version component accepted by `packaging.version.Version` in the purely
numeric release form: a non-empty decimal digit string. -/
def numericComponent? (s : String) : Option Nat :=
  match s.data with
  | [] => none
  | c :: cs => digitsToNatAux 0 (c :: cs)

/-- `Version(f"{maj}.{minor}.{patch}")` on numeric components: parses the three
components or rejects the string. -/
def parseVersion3 (maj minor patch : String) : Option Version3 :=
  match numericComponent? maj, numericComponent? minor, numericComponent? patch with
  | some a, some b, some c => some (a, b, c)
  | _, _, _ => none

/-! ## The release-consistency test

Embedding of `tests/test_bioimageio_spec_version.py` lines 14-36.  The mamba
repoquery and the metadata call are the external collaborators; the embedding
takes the released version string and the `Requires-Dist` requirement string
as inputs and returns how the test body ends. -/

/-- How a run of the body of `test_bioimageio_spec_version` ends. -/
inductive TestOutcome where
  /-- all asserts pass -/
  | passed
  /-- a failing `assert` statement -/
  | assertionError
  /-- tuple unpacking `a, b, c, *rest = xs` with fewer than three elements -/
  | valueError
  /-- `asterisk_and_rest[0]` on an empty list -/
  | indexError
  /-- `packaging.version.Version` rejecting its argument -/
  | invalidVersion
  deriving DecidableEq

/-- The literal `"bioimageio.spec (=="` the test strips from the pinned
requirement (line 29-30). -/
def pinHeader : String := "bioimageio.spec (=="

/-- Lines 30-36 after `req[len("bioimageio.spec (==") :].split(".")` produced
`parts`: the unpacking into `pmaj, pmin, ppatch, *asterisk_and_rest`, the
asterisk assert, the `Version` construction and the final
`assert pinned >= released`. -/
def pinCore (released : Version3) : List String → TestOutcome
  | pmaj :: pmin :: ppatch :: star0 :: _ =>
    if ([Char.ofNat 42]).isPrefixOf star0.data then
      match parseVersion3 pmaj pmin ppatch with
      | some pinned => if versionGe pinned released then .passed else .assertionError
      | none => .invalidVersion
    else .assertionError
  | _ :: _ :: _ :: [] => .indexError
  | _ => .valueError

/-- Lines 27-36: the `assert req.startswith("bioimageio.spec (==")` guard, the
slice dropping that literal, the dot-split and `pinCore`. -/
def pinnedCheck (released : Version3) (req : String) : TestOutcome :=
  if pinHeader.data.isPrefixOf req.data then
    pinCore released (splitDots (String.mk (req.data.drop pinHeader.data.length)))
  else .assertionError

/-- Lines 23-36 after `search[...]["version"].split(".")` produced `parts`: the
released-side unpacking `rmaj, rmin, rpatch, *_`, the `Version` construction,
then the pinned side. -/
def relCore (req : String) : List String → TestOutcome
  | rmaj :: rmin :: rpatch :: _ =>
    match parseVersion3 rmaj rmin rpatch with
    | some released => pinnedCheck released req
    | none => .invalidVersion
  | _ => .valueError

/-- The whole test body as a function of the released version string (from the
mamba repoquery) and the pinned requirement string (from package metadata). -/
def specVersionTest (releasedStr req : String) : TestOutcome :=
  relCore req (splitDots releasedStr)

/-- The format conditions the test asserts of the pinned requirement: it starts
with `"bioimageio.spec (=="` and its remainder has a fourth dot-separated
component beginning with `"*"`. -/
def pinFormatOk (req : String) : Bool :=
  pinHeader.data.isPrefixOf req.data &&
    (match splitDots (String.mk (req.data.drop pinHeader.data.length)) with
     | _ :: _ :: _ :: star0 :: _ => ([Char.ofNat 42]).isPrefixOf star0.data
     | _ => false)

/-! ## Version extraction at import time

Embedding of `bioimageio/core/__init__.py` lines 12-14: `json.load` of the
packaged VERSION file, subscripting with `"version"`, and the
`assert isinstance(__version__, str)`. -/

/-- JSON values as `json.load` returns them. -/
inductive Json where
  | str (s : String)
  | num (n : Int)
  | boolean (b : Bool)
  | null
  | arr (items : List Json)
  | obj (fields : List (String × Json))

/-- Dictionary lookup on a JSON object's fields. -/
def jsonLookup : List (String × Json) → String → Option Json
  | [], _ => none
  | (k, v) :: rest, key => if k = key then some v else jsonLookup rest key

/-- How executing `__init__.py` lines 12-14 on a parsed VERSION document ends. -/
inductive ImportOutcome where
  /-- import succeeds with `__version__` bound to this string -/
  | ok (version : String)
  /-- `json.load(f)["version"]` with the key absent -/
  | keyError
  /-- subscripting a non-object JSON document -/
  | typeError
  /-- `assert isinstance(__version__, str)` fails -/
  | assertionError
  deriving DecidableEq

/-- `__version__: str = json.load(f)["version"]; assert isinstance(__version__, str)`
on the parsed VERSION document. -/
def importVersion (doc : Json) : ImportOutcome :=
  match doc with
  | .obj fields =>
    match jsonLookup fields "version" with
    | some (.str s) => .ok s
    | some _ => .assertionError
    | none => .keyError
  | _ => .typeError

/-! ## The description pipeline

The functions behind `load_description`, `read_description`,
`write_description`, `load_description_and_validate` and `write_package` are
re-exported by `__init__.py` from `bioimageio.core._io`, which is not among
the visible sources; each definition below is modelled from the
specification's contract for the corresponding component. -/

/-- Modelled from the spec (§4.2): values of the structured document tree the
parser produces from YAML/JSON-like text; the concrete text syntax layer is
part of the missing `_io` module. -/
inductive DocValue where
  | str (s : String)
  | num (n : Nat)
  | list (items : List DocValue)

/-- A structurally parsed document: an ordered list of top-level key/value
pairs. -/
abbrev RawDoc := List (String × DocValue)

/-- Modelled from the spec (§3): severity of a validation finding. -/
inductive Severity where
  | error
  | warning
  deriving DecidableEq

/-- Modelled from the spec (§3): a validation finding carries severity, field
path, message, and the rule that produced it. -/
structure Finding where
  severity : Severity
  fieldPath : String
  message : String
  rule : String

/-- Modelled from the spec (§3): the versioned typed tree with required field
`format_version`, the typed sections, and the "unrecognized" bucket that
retains unknown top-level keys. -/
structure ResourceDescription where
  format_version : Version3
  type : Option DocValue
  name : Option DocValue
  inputs : Option DocValue
  outputs : Option DocValue
  test_inputs : Option DocValue
  weights : Option DocValue
  attachments : Option DocValue
  authors : Option DocValue
  unrecognized : RawDoc

/-- The top-level keys the schema recognizes as typed sections (plus
`format_version` itself). -/
def knownKeys : List String :=
  ["format_version", "type", "name", "inputs", "outputs", "test_inputs",
   "weights", "attachments", "authors"]

/-- First-match association lookup on a document's key/value pairs. -/
def lookupKey : RawDoc → String → Option DocValue
  | [], _ => none
  | (k, v) :: rest, key => if k = key then some v else lookupKey rest key

/-- The declared `format_version` as the parser stores it in the document
tree: a three-element numeric list. -/
def encodeVersion (v : Version3) : DocValue :=
  .list [.num v.1, .num v.2.1, .num v.2.2]

/-- Reading a declared `format_version` back out of its document form. -/
def decodeVersion : DocValue → Option Version3
  | .list [.num a, .num b, .num c] => some (a, b, c)
  | _ => none

/-- Modelled from the spec (§4.2): the oldest supported schema version, used
as the default when `format_version` is absent. -/
def oldestSupportedVersion : Version3 := (0, 3, 0)

/-- Distribute a parsed document's top-level pairs over the typed sections,
retaining unknown keys in the `unrecognized` bucket. -/
def buildDescription (fv : Version3) (doc : RawDoc) : ResourceDescription :=
  { format_version := fv
    type := lookupKey doc "type"
    name := lookupKey doc "name"
    inputs := lookupKey doc "inputs"
    outputs := lookupKey doc "outputs"
    test_inputs := lookupKey doc "test_inputs"
    weights := lookupKey doc "weights"
    attachments := lookupKey doc "attachments"
    authors := lookupKey doc "authors"
    unrecognized := doc.filter (fun kv => !(knownKeys.contains kv.1)) }

/-- Modelled from the spec (§7): the parse-time error taxonomy.
`UnsupportedVersionError` when the declared schema version is newer than
supported, `MalformedDescriptionError` on a syntax-level fault (here: a
`format_version` value of the wrong shape). -/
inductive ParseError where
  | unsupportedVersion (declared : Version3)
  | malformedDescription

/-- Modelled from the spec (§4.2 DescriptionParser): select the schema
version from the declared metadata — absent `format_version` defaults to the
oldest supported version with a warning finding, a declared version above the
ceiling fails with `UnsupportedVersionError`, a malformed declaration fails
with `MalformedDescriptionError` — then build the typed tree. -/
def parse (maxSupported : Version3) (doc : RawDoc) :
    Except ParseError (ResourceDescription × List Finding) :=
  match lookupKey doc "format_version" with
  | none =>
    .ok (buildDescription oldestSupportedVersion doc,
      [{ severity := .warning, fieldPath := "format_version",
         message := "format_version missing; defaulting to oldest supported version",
         rule := "format_version_default" }])
  | some v =>
    match decodeVersion v with
    | none => .error .malformedDescription
    | some fv =>
      if versionLt maxSupported fv then .error (.unsupportedVersion fv)
      else .ok (buildDescription fv doc, [])

/-- A typed section as the writer emits it: one pair when present, nothing
when absent. -/
def optField (key : String) : Option DocValue → RawDoc
  | some v => [(key, v)]
  | none => []

/-- Modelled from the spec (§4.4 DescriptionWriter): serialize the typed tree
back to document form, re-emitting fields in the fixed version-defined order,
with the unrecognized bucket preserved verbatim at the end. -/
def writeDescription (d : ResourceDescription) : RawDoc :=
  ("format_version", encodeVersion d.format_version) ::
    (optField "type" d.type ++ optField "name" d.name ++
     optField "inputs" d.inputs ++ optField "outputs" d.outputs ++
     optField "test_inputs" d.test_inputs ++ optField "weights" d.weights ++
     optField "attachments" d.attachments ++ optField "authors" d.authors ++
     d.unrecognized)

/-! ### Validator, modelled from the spec (§4.3) -/

/-- A validation rule: reads the description and produces findings.  The type
lets a rule also return a description, so that the frame property — the
validator returns its input unchanged — is a theorem about the concrete
rules, not a consequence of the type. -/
def Rule := ResourceDescription → List Finding × ResourceDescription

/-- Smart constructor for an error finding. -/
def errFinding (path msg ruleName : String) : Finding :=
  { severity := .error, fieldPath := path, message := msg, rule := ruleName }

/-- Modelled from the spec (§4.3): the required-fields rule group — `name` and
`type` must be present. -/
def requiredFieldsRule : Rule := fun d =>
  ((if d.name.isNone then [errFinding "name" "required field missing" "required_fields"] else []) ++
   (if d.type.isNone then [errFinding "type" "required field missing" "required_fields"] else []),
   d)

/-- Does a possibly-absent section hold a string, if present? -/
def strOk : Option DocValue → Bool
  | some (.str _) => true
  | some _ => false
  | none => true

/-- Does a possibly-absent section hold a list, if present? -/
def listOk : Option DocValue → Bool
  | some (.list _) => true
  | some _ => false
  | none => true

/-- Modelled from the spec (§4.3): the type-checks rule group — scalar
sections must be strings, collection sections must be lists. -/
def typeChecksRule : Rule := fun d =>
  ((if strOk d.type then [] else [errFinding "type" "expected a string" "type_checks"]) ++
   (if strOk d.name then [] else [errFinding "name" "expected a string" "type_checks"]) ++
   (if listOk d.inputs then [] else [errFinding "inputs" "expected a list" "type_checks"]) ++
   (if listOk d.outputs then [] else [errFinding "outputs" "expected a list" "type_checks"]) ++
   (if listOk d.test_inputs then [] else [errFinding "test_inputs" "expected a list" "type_checks"]) ++
   (if listOk d.weights then [] else [errFinding "weights" "expected a list" "type_checks"]) ++
   (if listOk d.attachments then [] else [errFinding "attachments" "expected a list" "type_checks"]) ++
   (if listOk d.authors then [] else [errFinding "authors" "expected a list" "type_checks"]),
   d)

/-- The string entries of a possibly-absent list section. -/
def strNames : Option DocValue → List String
  | some (.list items) =>
    items.filterMap (fun v => match v with | .str s => some s | _ => none)
  | _ => []

/-- Modelled from the spec (§4.3): the cross-field consistency rule group —
every input referenced by a test case must exist in `inputs`. -/
def crossFieldRule : Rule := fun d =>
  (((strNames d.test_inputs).filter
      (fun n => !((strNames d.inputs).contains n))).map
    (fun n => errFinding "test_inputs" ("references unknown input " ++ n) "cross_field"),
   d)

/-- Modelled from the spec (§4.3): each `format_version` maps to an ordered
list of rule groups; cross-field consistency checks exist from schema version
0.4.0 on. -/
def rulesFor (fv : Version3) : List Rule :=
  if versionLt fv (0, 4, 0) then [requiredFieldsRule, typeChecksRule]
  else [requiredFieldsRule, typeChecksRule, crossFieldRule]

/-- Run the rule groups in order, threading the description through each
rule and concatenating their findings. -/
def applyRules : List Rule → ResourceDescription → List Finding × ResourceDescription
  | [], d => ([], d)
  | r :: rs, d =>
    let (fs, d1) := r d
    let (rest, d2) := applyRules rs d1
    (fs ++ rest, d2)

/-- The description after validation, paired with the findings (explicit
state-passing form of `validate`). -/
def validateSt (d : ResourceDescription) : List Finding × ResourceDescription :=
  applyRules (rulesFor d.format_version) d

/-- Modelled from the spec (§4.3 Validator): the ordered finding list. -/
def validate (d : ResourceDescription) : List Finding :=
  (validateSt d).1

/-- Modelled from the spec (§4.3): the only raising condition is the
programmer error of handing the validator no description at all. -/
inductive ProgrammerError where
  | noneDescription

/-- `validate` at the API boundary: a `None` description raises, any actual
description yields a finding list. -/
def validateOpt : Option ResourceDescription → Except ProgrammerError (List Finding)
  | none => .error .noneDescription
  | some d => .ok (validate d)

/-- Is this finding of severity error? -/
def isErrorFinding (f : Finding) : Bool :=
  match f.severity with
  | .error => true
  | .warning => false

/-- Modelled from the spec (§4.3): a description is valid iff it has zero
findings of severity error; for round-tripping it must additionally declare a
supported `format_version`, and its unrecognized bucket must be genuinely
unrecognized keys (the parser only ever puts unknown keys there). -/
def validDescription (maxSupported : Version3) (d : ResourceDescription) : Bool :=
  versionLe d.format_version maxSupported &&
  (validate d).all (fun f => !(isErrorFinding f)) &&
  d.unrecognized.all (fun kv => !(knownKeys.contains kv.1))

/-! ### Package builder, modelled from the spec (§4.5) -/

/-- The files available to the source resolver at packaging time: reference
name to byte content. -/
abbrev FileStore := List (String × List Nat)

/-- Resolve one referenced file to its bytes, if it exists. -/
def resolveFile : FileStore → String → Option (List Nat)
  | [], _ => none
  | (k, bs) :: rest, ref => if k = ref then some bs else resolveFile rest ref

/-- Modelled from the spec (§7): a packaging-time dangling reference, named. -/
structure MissingReferencedFileError where
  ref : String
  deriving DecidableEq

/-- What an archive entry holds: the serialized description or a referenced
file's bytes. -/
inductive EntryContent where
  | descDoc (doc : RawDoc)
  | fileBytes (bs : List Nat)

/-- Modelled from the spec (§4.5): every file reference in the description
(weights entries, attachments) paired with its deterministically derived
archive path, e.g. `weights/<name>`. -/
def derivedEntries (d : ResourceDescription) : List (String × String) :=
  (strNames d.weights).map (fun n => ("weights/" ++ n, n)) ++
  (strNames d.attachments).map (fun n => ("attachments/" ++ n, n))

/-- Walk the derived entries in order, resolving each reference: aggregates
every missing file rather than stopping at the first, and collects the
resolved archive entries. -/
def collectEntries (store : FileStore) :
    List (String × String) → List MissingReferencedFileError × List (String × EntryContent)
  | [] => ([], [])
  | (path, ref) :: rest =>
    let (ms, es) := collectEntries store rest
    match resolveFile store ref with
    | some bs => (ms, (path, .fileBytes bs) :: es)
    | none => ({ ref := ref } :: ms, es)

/-- The fixed entry name of the serialized description inside an archive. -/
def descEntryName : String := "rdf.yaml"

/-- Modelled from the spec (§4.5 PackageBuilder, `write_package`): resolve
every reference, and only when none is missing produce the archive holding the
canonical serialized description plus each referenced file at its derived
path; otherwise fail with all `MissingReferencedFileError`s at once. -/
def buildPackage (d : ResourceDescription) (store : FileStore) :
    Except (List MissingReferencedFileError) (List (String × EntryContent)) :=
  let (ms, es) := collectEntries store (derivedEntries d)
  if ms.isEmpty then .ok ((descEntryName, .descDoc (writeDescription d)) :: es)
  else .error ms

/-- The missing references of a description against a file store, in walk
order. -/
def missingRefs (d : ResourceDescription) (store : FileStore) :
    List MissingReferencedFileError :=
  ((derivedEntries d).filter (fun e => (resolveFile store e.2).isNone)).map
    (fun e => { ref := e.2 })

/-- The successfully resolved archive entries of a description against a file
store, in walk order. -/
def okEntries (d : ResourceDescription) (store : FileStore) :
    List (String × EntryContent) :=
  (derivedEntries d).filterMap
    (fun e => (resolveFile store e.2).map (fun bs => (e.1, EntryContent.fileBytes bs)))

/-- Modelled from the spec (§4.5): packaging against a target path.  The
archive is assembled in a temporary location (`collectEntries`); only on full
success is it renamed over the target path, whose prior content is `target`;
on failure the temporary assembly is discarded and the target is untouched. -/
def buildPackageAt (d : ResourceDescription) (store : FileStore)
    (target : Option (List (String × EntryContent))) :
    Option (List (String × EntryContent)) ×
      Except (List MissingReferencedFileError) (List (String × EntryContent)) :=
  let (ms, es) := collectEntries store (derivedEntries d)
  if ms.isEmpty then
    let archive := (descEntryName, .descDoc (writeDescription d)) :: es
    (some archive, .ok archive)
  else
    (target, .error ms)

/-! ## Theorems about the release-consistency test and the import-time version -/

theorem versionGe_eq_false_iff_versionLt (x y : Version3) :
    versionGe x y = false ↔ versionLt x y = true := by
  obtain ⟨a1, b1, c1⟩ := x
  obtain ⟨a2, b2, c2⟩ := y
  simp only [versionGe, versionLe, versionLt, Bool.or_eq_false_iff, Bool.or_eq_true,
    Bool.and_eq_false_iff, Bool.and_eq_true, decide_eq_false_iff_not, decide_eq_true_eq,
    Prod.mk.injEq, not_and, not_or]
  omega

/-- C8: once the release-consistency test reaches its final comparison (the
pinned requirement is well-formed and both versions parsed), the test passes
iff the pinned version is greater than or equal to the released one, and fails
with an assertion error iff the pinned version is strictly less than the
released one. -/
theorem test_fails_iff_pin_stale (released pinned : Version3)
    (p1 p2 p3 star0 : String) (rest : List String)
    (hstar : ([Char.ofNat 42]).isPrefixOf star0.data = true)
    (hparse : parseVersion3 p1 p2 p3 = some pinned) :
    (pinCore released (p1 :: p2 :: p3 :: star0 :: rest) = .passed ↔
       versionGe pinned released = true) ∧
    (pinCore released (p1 :: p2 :: p3 :: star0 :: rest) = .assertionError ↔
       versionLt pinned released = true) := by
  have hiff := versionGe_eq_false_iff_versionLt pinned released
  cases hvg : versionGe pinned released with
  | false =>
    have hlt : versionLt pinned released = true := hiff.mp hvg
    simp [pinCore, hstar, hparse, hvg, hlt]
  | true =>
    have hnlt : versionLt pinned released ≠ true := by
      intro h
      have hf := hiff.mpr h
      rw [hvg] at hf
      cases hf
    simp [pinCore, hstar, hparse, hvg, hnlt]

/-- Witness: with released 0.4.9 and the pin 0.4.9.* the comparison passes. -/
theorem test_fails_iff_pin_stale_witness :
    pinCore (0, 4, 9) ["0", "4", "9", "*"] = .passed :=
  (test_fails_iff_pin_stale (0, 4, 9) (0, 4, 9) "0" "4" "9" "*" []
    (by decide) (by decide)).1.mpr (by decide)

/-- C9: when the parsed VERSION document is an object whose `"version"` key is
present, import binds `__version__` to its value if it is a string and fails
with an assertion error otherwise; and every successful import comes from a
string-valued `"version"` key, so `__version__` is always a string. -/
theorem import_version_is_string (doc : Json) :
    (∀ fields j, doc = .obj fields → jsonLookup fields "version" = some j →
       importVersion doc =
         (match j with | .str s => .ok s | _ => .assertionError)) ∧
    (∀ s, importVersion doc = .ok s →
       ∃ fields, doc = .obj fields ∧ jsonLookup fields "version" = some (.str s)) := by
  constructor
  · rintro fields j rfl hl
    cases j <;> simp [importVersion, hl]
  · intro s h
    cases doc with
    | obj fields =>
      refine ⟨fields, rfl, ?_⟩
      cases hl : jsonLookup fields "version" with
      | none => simp [importVersion, hl] at h
      | some j =>
        cases j with
        | str t =>
          have ht : t = s := by simpa [importVersion, hl] using h
          rw [ht]
        | num n => simp [importVersion, hl] at h
        | boolean b => simp [importVersion, hl] at h
        | null => simp [importVersion, hl] at h
        | arr items => simp [importVersion, hl] at h
        | obj f2 => simp [importVersion, hl] at h
    | str s2 => simp [importVersion] at h
    | num n => simp [importVersion] at h
    | boolean b => simp [importVersion] at h
    | null => simp [importVersion] at h
    | arr items => simp [importVersion] at h

/-- Witness: a VERSION document with a string `"version"` imports successfully
with that string. -/
theorem import_version_is_string_witness :
    importVersion (Json.obj [("version", Json.str "0.5.0")]) = .ok "0.5.0" :=
  (import_version_is_string (Json.obj [("version", Json.str "0.5.0")])).1
    [("version", Json.str "0.5.0")] (Json.str "0.5.0") rfl rfl

/-- C10 counterexample: the pinned requirement `"bioimageio.spec (==0.4"`
starts with the expected literal but has only two dot-separated components
after it, so the test fails with a ValueError from tuple unpacking, which is
neither an assertion error nor an index error, although the requirement has no
fourth dot-separated component beginning with an asterisk. -/
theorem pin_two_components_value_error :
    pinFormatOk "bioimageio.spec (==0.4" = false ∧
    pinnedCheck (0, 4, 9) "bioimageio.spec (==0.4" = .valueError ∧
    specVersionTest "0.4.9" "bioimageio.spec (==0.4" = .valueError ∧
    TestOutcome.valueError ≠ TestOutcome.assertionError ∧
    TestOutcome.valueError ≠ TestOutcome.indexError := by
  refine ⟨by decide, by decide, by decide, by decide, by decide⟩

/-- C10 (amended): the test discards every dot-separated component of the
released version after the third and every component of the pinned requirement
after the fourth; and it fails (assertion, index, or value error) unless the
pinned requirement starts with `"bioimageio.spec (=="` and has a fourth
dot-separated component beginning with `"*"`. -/
theorem pin_format_failure_modes :
    (∀ req a b c rest rest',
       relCore req (a :: b :: c :: rest) = relCore req (a :: b :: c :: rest')) ∧
    (∀ v p1 p2 p3 p4 rest rest',
       pinCore v (p1 :: p2 :: p3 :: p4 :: rest) =
         pinCore v (p1 :: p2 :: p3 :: p4 :: rest')) ∧
    (∀ v req, pinFormatOk req = false →
       pinnedCheck v req = .assertionError ∨ pinnedCheck v req = .indexError ∨
         pinnedCheck v req = .valueError) := by
  refine ⟨fun req a b c rest rest' => rfl, fun v p1 p2 p3 p4 rest rest' => rfl, ?_⟩
  intro v req h
  unfold pinFormatOk at h
  unfold pinnedCheck
  cases hpre : pinHeader.data.isPrefixOf req.data with
  | false => simp [hpre]
  | true =>
    rw [hpre] at h
    rw [Bool.true_and] at h
    simp only [hpre, if_true]
    rcases hs : splitDots (String.mk (req.data.drop pinHeader.data.length)) with
      _ | ⟨x1, _ | ⟨x2, _ | ⟨x3, _ | ⟨x4, rest⟩⟩⟩⟩
    · simp [pinCore]
    · simp [pinCore]
    · simp [pinCore]
    · simp [pinCore]
    · rw [hs] at h
      have h4 : ([Char.ofNat 42]).isPrefixOf x4.data = false := h
      simp [pinCore, h4]

/-- Witness: a requirement pinned only to minor version makes the test fail
with one of the three error kinds. -/
theorem pin_format_failure_modes_witness :
    pinnedCheck (0, 4, 9) "bioimageio.spec (==0.4" = .assertionError ∨
    pinnedCheck (0, 4, 9) "bioimageio.spec (==0.4" = .indexError ∨
    pinnedCheck (0, 4, 9) "bioimageio.spec (==0.4" = .valueError :=
  pin_format_failure_modes.2.2 (0, 4, 9) "bioimageio.spec (==0.4" (by decide)

/-! ## Theorems about the description pipeline -/

/-- C1: parsing a document whose declared `format_version` is strictly above
the supported ceiling fails with `UnsupportedVersionError`; it never succeeds
by silently downgrading. -/
theorem parse_version_ceiling (maxSupported : Version3) (doc : RawDoc)
    (v : DocValue) (fv : Version3)
    (hk : lookupKey doc "format_version" = some v)
    (hd : decodeVersion v = some fv)
    (hgt : versionLt maxSupported fv = true) :
    parse maxSupported doc = .error (.unsupportedVersion fv) := by
  simp [parse, hk, hd, hgt]

/-- Witness: a document declaring format_version 99.0.0 against ceiling 0.5.0
fails with the unsupported-version error. -/
theorem parse_version_ceiling_witness :
    parse (0, 5, 0) [("format_version", encodeVersion (99, 0, 0))] =
      .error (.unsupportedVersion (99, 0, 0)) :=
  parse_version_ceiling (0, 5, 0) [("format_version", encodeVersion (99, 0, 0))]
    (encodeVersion (99, 0, 0)) (99, 0, 0) rfl rfl (by decide)

/-- C5: validation is deterministic — two calls on the same description yield
identical ordered finding lists. -/
theorem validate_deterministic (d1 d2 : ResourceDescription) (h : d1 = d2) :
    validate d1 = validate d2 := by
  rw [h]

/-- Witness: two validations of one concrete description agree. -/
theorem validate_deterministic_witness :
    validate { format_version := (0, 4, 0), type := some (.str "model"),
               name := some (.str "m"), inputs := none, outputs := none,
               test_inputs := none, weights := none, attachments := none,
               authors := none, unrecognized := [] } =
    validate { format_version := (0, 4, 0), type := some (.str "model"),
               name := some (.str "m"), inputs := none, outputs := none,
               test_inputs := none, weights := none, attachments := none,
               authors := none, unrecognized := [] } :=
  validate_deterministic _ _ rfl

/-- C6: for every description — any content, including schema-violating
content — validation returns a finding list and never raises; only the
programmer error of passing no description at all raises. -/
theorem validate_never_raises :
    (∀ d, validateOpt (some d) = Except.ok (validate d)) ∧
    validateOpt none = Except.error ProgrammerError.noneDescription :=
  ⟨fun _ => rfl, rfl⟩

theorem applyRules_preserves (rs : List Rule)
    (h : ∀ r ∈ rs, ∀ d, (r d).2 = d) :
    ∀ d, (applyRules rs d).2 = d := by
  induction rs with
  | nil => intro d; rfl
  | cons r rest ih =>
    intro d
    have hr : (r d).2 = d := h r (List.mem_cons_self r rest) d
    have hrest : ∀ r2 ∈ rest, ∀ d2, (r2 d2).2 = d2 :=
      fun r2 hm d2 => h r2 (List.mem_cons_of_mem r hm) d2
    rcases hrd : r d with ⟨fs, d1⟩
    have hd1 : d1 = d := by rw [hrd] at hr; exact hr
    rcases hra : applyRules rest d1 with ⟨fs2, d2⟩
    have hd2 : d2 = d1 := by
      have h2 := ih hrest d1
      rw [hra] at h2
      exact h2
    simp only [applyRules, hrd, hra]
    rw [hd2, hd1]

/-- C7: validation leaves the description unchanged — the description
returned by the state-passing validator equals its input. -/
theorem validate_frame (d : ResourceDescription) : (validateSt d).2 = d := by
  unfold validateSt
  apply applyRules_preserves
  intro r hr d2
  unfold rulesFor at hr
  split at hr <;>
    simp only [List.mem_cons, List.not_mem_nil, or_false] at hr
  · rcases hr with rfl | rfl <;> rfl
  · rcases hr with rfl | rfl | rfl <;> rfl

theorem lookupKey_append (xs ys : RawDoc) (key : String) :
    lookupKey (xs ++ ys) key =
      match lookupKey xs key with
      | some v => some v
      | none => lookupKey ys key := by
  induction xs with
  | nil => rfl
  | cons kv rest ih =>
    obtain ⟨k, v⟩ := kv
    by_cases hk : k = key
    · simp [lookupKey, hk]
    · simp [lookupKey, hk, ih]

theorem lookupKey_optField_self (key : String) (v : Option DocValue) :
    lookupKey (optField key v) key = v := by
  cases v <;> simp [optField, lookupKey]

theorem lookupKey_optField_of_ne (k2 key : String) (v : Option DocValue)
    (h : ¬(k2 = key)) :
    lookupKey (optField k2 v) key = none := by
  cases v <;> simp [optField, lookupKey, h]

theorem lookupKey_cons_ne (k2 key : String) (v : DocValue) (rest : RawDoc)
    (h : ¬(k2 = key)) :
    lookupKey ((k2, v) :: rest) key = lookupKey rest key := by
  simp [lookupKey, h]

theorem lookupKey_eq_none_of_unrecognized (xs : RawDoc) (key : String)
    (hall : xs.all (fun kv => !(knownKeys.contains kv.1)) = true)
    (hkey : key ∈ knownKeys) :
    lookupKey xs key = none := by
  induction xs with
  | nil => rfl
  | cons kv rest ih =>
    obtain ⟨k, v⟩ := kv
    rw [List.all_cons, Bool.and_eq_true] at hall
    obtain ⟨h1, h2⟩ := hall
    simp only [Bool.not_eq_true'] at h1
    have hk : ¬(k = key) := by
      intro he
      subst he
      have hc : knownKeys.contains k = true := List.elem_eq_true_of_mem hkey
      rw [hc] at h1
      exact Bool.noConfusion h1
    simp [lookupKey, hk, ih h2]

theorem filter_unrecognized_self (xs : RawDoc)
    (hall : xs.all (fun kv => !(knownKeys.contains kv.1)) = true) :
    xs.filter (fun kv => !(knownKeys.contains kv.1)) = xs := by
  rw [List.filter_eq_self]
  exact fun kv hm => List.all_eq_true.mp hall kv hm

theorem filterUnknown_cons_known (k : String) (v : DocValue) (rest : RawDoc)
    (hk : k ∈ knownKeys) :
    ((k, v) :: rest).filter (fun kv => !(knownKeys.contains kv.1)) =
      rest.filter (fun kv => !(knownKeys.contains kv.1)) := by
  simp [List.filter_cons, hk]

theorem filter_optField_known (k2 : String) (v : Option DocValue)
    (hk : k2 ∈ knownKeys) :
    (optField k2 v).filter (fun kv => !(knownKeys.contains kv.1)) = [] := by
  cases v <;> simp [optField, List.filter_cons, hk]

theorem decodeVersion_encodeVersion (v : Version3) :
    decodeVersion (encodeVersion v) = some v := rfl

theorem versionLt_eq_false_of_versionLe (x y : Version3)
    (h : versionLe x y = true) : versionLt y x = false := by
  cases hlt : versionLt y x with
  | false => rfl
  | true =>
    have hge : versionGe y x = false := (versionGe_eq_false_iff_versionLt y x).mpr hlt
    unfold versionGe at hge
    rw [h] at hge
    exact Bool.noConfusion hge

/-- C2: writing a valid description and parsing the result yields the
description back, field for field, with the unrecognized bucket preserved
rather than dropped. -/
theorem write_parse_round_trip (maxSupported : Version3) (d : ResourceDescription)
    (h : validDescription maxSupported d = true) :
    parse maxSupported (writeDescription d) = Except.ok (d, []) := by
  obtain ⟨fv, t, n, i, o, ti, w, att, au, u⟩ := d
  unfold validDescription at h
  rw [Bool.and_eq_true, Bool.and_eq_true] at h
  obtain ⟨⟨hle, _hnoerr⟩, hunrec⟩ := h
  have hlt : versionLt maxSupported fv = false :=
    versionLt_eq_false_of_versionLe _ _ hle
  have hu : ∀ key, key ∈ knownKeys → lookupKey u key = none :=
    fun key hk => lookupKey_eq_none_of_unrecognized u key hunrec hk
  have hfil : u.filter (fun kv => !(knownKeys.contains kv.1)) = u :=
    filter_unrecognized_self u hunrec
  have hbuild :
      buildDescription fv (writeDescription ⟨fv, t, n, i, o, ti, w, att, au, u⟩) =
        ⟨fv, t, n, i, o, ti, w, att, au, u⟩ := by
    unfold buildDescription writeDescription
    simp only [ResourceDescription.mk.injEq]
    refine ⟨trivial, ?_, ?_, ?_, ?_, ?_, ?_, ?_, ?_, ?_⟩
    · rcases t with _ | tv <;>
        simp [lookupKey_cons_ne, lookupKey_append, lookupKey_optField_self,
              lookupKey_optField_of_ne, hu "type" (by decide)]
    · rcases n with _ | nv <;>
        simp [lookupKey_cons_ne, lookupKey_append, lookupKey_optField_self,
              lookupKey_optField_of_ne, hu "name" (by decide)]
    · rcases i with _ | iv <;>
        simp [lookupKey_cons_ne, lookupKey_append, lookupKey_optField_self,
              lookupKey_optField_of_ne, hu "inputs" (by decide)]
    · rcases o with _ | ov <;>
        simp [lookupKey_cons_ne, lookupKey_append, lookupKey_optField_self,
              lookupKey_optField_of_ne, hu "outputs" (by decide)]
    · rcases ti with _ | tiv <;>
        simp [lookupKey_cons_ne, lookupKey_append, lookupKey_optField_self,
              lookupKey_optField_of_ne, hu "test_inputs" (by decide)]
    · rcases w with _ | wv <;>
        simp [lookupKey_cons_ne, lookupKey_append, lookupKey_optField_self,
              lookupKey_optField_of_ne, hu "weights" (by decide)]
    · rcases att with _ | attv <;>
        simp [lookupKey_cons_ne, lookupKey_append, lookupKey_optField_self,
              lookupKey_optField_of_ne, hu "attachments" (by decide)]
    · rcases au with _ | auv <;>
        simp [lookupKey_cons_ne, lookupKey_append, lookupKey_optField_self,
              lookupKey_optField_of_ne, hu "authors" (by decide)]
    · rw [filterUnknown_cons_known _ _ _ (by decide)]
      have ft := filter_optField_known "type" t (by decide)
      have fn := filter_optField_known "name" n (by decide)
      have fi := filter_optField_known "inputs" i (by decide)
      have fo := filter_optField_known "outputs" o (by decide)
      have fti := filter_optField_known "test_inputs" ti (by decide)
      have fw := filter_optField_known "weights" w (by decide)
      have fatt := filter_optField_known "attachments" att (by decide)
      have fau := filter_optField_known "authors" au (by decide)
      simp only [List.filter_append, ft, fn, fi, fo, fti, fw, fatt, fau,
        List.nil_append, List.append_nil]
      exact hfil
  have hfv : lookupKey (writeDescription ⟨fv, t, n, i, o, ti, w, att, au, u⟩)
      "format_version" = some (encodeVersion fv) := by
    simp [writeDescription, lookupKey]
  unfold parse
  rw [hfv]
  simp only [decodeVersion_encodeVersion, hlt, Bool.false_eq_true, if_false]
  rw [hbuild]

/-- Witness: a concrete valid description (with an unrecognized custom key)
round-trips through write and parse unchanged. -/
theorem write_parse_round_trip_witness :
    validDescription (0, 5, 0)
      { format_version := (0, 4, 0), type := some (.str "model"),
        name := some (.str "m"), inputs := some (.list [.str "x"]),
        outputs := some (.list []), test_inputs := some (.list [.str "x"]),
        weights := some (.list [.str "w.pt"]), attachments := none,
        authors := some (.list []),
        unrecognized := [("custom", .num 1)] } = true ∧
    parse (0, 5, 0)
      (writeDescription
        { format_version := (0, 4, 0), type := some (.str "model"),
          name := some (.str "m"), inputs := some (.list [.str "x"]),
          outputs := some (.list []), test_inputs := some (.list [.str "x"]),
          weights := some (.list [.str "w.pt"]), attachments := none,
          authors := some (.list []),
          unrecognized := [("custom", .num 1)] }) =
      Except.ok
        ({ format_version := (0, 4, 0), type := some (.str "model"),
           name := some (.str "m"), inputs := some (.list [.str "x"]),
           outputs := some (.list []), test_inputs := some (.list [.str "x"]),
           weights := some (.list [.str "w.pt"]), attachments := none,
           authors := some (.list []),
           unrecognized := [("custom", .num 1)] }, []) :=
  ⟨by decide, write_parse_round_trip (0, 5, 0) _ (by decide)⟩

theorem collectEntries_eq (store : FileStore) (l : List (String × String)) :
    collectEntries store l =
      ((l.filter (fun e => (resolveFile store e.2).isNone)).map
         (fun e => { ref := e.2 }),
       l.filterMap
         (fun e => (resolveFile store e.2).map
           (fun bs => (e.1, EntryContent.fileBytes bs)))) := by
  induction l with
  | nil => rfl
  | cons pr rest ih =>
    obtain ⟨path, ref⟩ := pr
    cases hr : resolveFile store ref with
    | some bs => simp [collectEntries, ih, hr, List.filter_cons, List.filterMap_cons]
    | none => simp [collectEntries, ih, hr, List.filter_cons, List.filterMap_cons]

theorem collectEntries_derived (d : ResourceDescription) (store : FileStore) :
    collectEntries store (derivedEntries d) = (missingRefs d store, okEntries d store) := by
  rw [collectEntries_eq]
  rfl

theorem okEntries_paths (store : FileStore) (l : List (String × String))
    (h : ∀ e ∈ l, (resolveFile store e.2).isSome = true) :
    (l.filterMap
       (fun e => (resolveFile store e.2).map
         (fun bs => (e.1, EntryContent.fileBytes bs)))).map Prod.fst =
      l.map Prod.fst := by
  induction l with
  | nil => rfl
  | cons pr rest ih =>
    obtain ⟨path, ref⟩ := pr
    have hhead := h (path, ref) (List.mem_cons_self _ _)
    cases hr : resolveFile store ref with
    | none => rw [hr] at hhead; exact Bool.noConfusion hhead
    | some bs =>
      simp [List.filterMap_cons, hr,
        ih (fun e he => h e (List.mem_cons_of_mem _ he))]

/-- C3: when every referenced file resolves, the package is exactly the
canonical serialized description plus each referenced file at its derived
path; when exactly one reference B is missing, packaging fails with exactly
one `MissingReferencedFileError` naming B; in general all missing references
are aggregated into a single error rather than failing at the first. -/
theorem build_package_spec (d : ResourceDescription) (store : FileStore) :
    (missingRefs d store = [] →
       buildPackage d store =
         Except.ok ((descEntryName, .descDoc (writeDescription d)) :: okEntries d store) ∧
       (okEntries d store).map Prod.fst = (derivedEntries d).map Prod.fst) ∧
    (∀ b, missingRefs d store = [{ ref := b }] →
       buildPackage d store = Except.error [{ ref := b }]) ∧
    (missingRefs d store ≠ [] →
       buildPackage d store = Except.error (missingRefs d store)) := by
  have hc := collectEntries_derived d store
  have herr : missingRefs d store ≠ [] →
      buildPackage d store = Except.error (missingRefs d store) := by
    intro hne
    have hie : (missingRefs d store).isEmpty = false := by
      cases hmr : missingRefs d store with
      | nil => exact absurd hmr hne
      | cons a l => rfl
    simp [buildPackage, hc, hie]
  refine ⟨?_, ?_, herr⟩
  · intro hm
    constructor
    · simp [buildPackage, hc, hm]
    · unfold okEntries
      apply okEntries_paths
      intro e he
      cases hr : resolveFile store e.2 with
      | some bs => rfl
      | none =>
        exfalso
        have hmem : e ∈ (derivedEntries d).filter
            (fun e2 => (resolveFile store e2.2).isNone) := by
          rw [List.mem_filter]
          exact ⟨he, by rw [hr]; rfl⟩
        have hbm : ({ ref := e.2 } : MissingReferencedFileError) ∈ missingRefs d store :=
          List.mem_map_of_mem _ hmem
        rw [hm] at hbm
        exact List.not_mem_nil _ hbm
  · intro b hm
    have hne : missingRefs d store ≠ [] := by rw [hm]; simp
    have h2 := herr hne
    rw [hm] at h2
    exact h2

/-- Witness: a description referencing weights A, B, C against a store where
B is absent fails with exactly one missing-file error naming B. -/
theorem build_package_spec_witness :
    buildPackage
      { format_version := (0, 4, 0), type := some (.str "model"),
        name := some (.str "m"), inputs := none, outputs := none,
        test_inputs := none,
        weights := some (.list [.str "A", .str "B", .str "C"]),
        attachments := none, authors := none, unrecognized := [] }
      [("A", [1]), ("C", [3])] =
      Except.error [{ ref := "B" }] :=
  (build_package_spec _ _).2.1 "B" (by decide)

/-- C4: packaging is atomic — on any missing-file failure the target path
still holds what it held before (in particular nothing, when it was empty);
the full archive appears at the target only on full success. -/
theorem build_package_atomicity (d : ResourceDescription) (store : FileStore) :
    (missingRefs d store ≠ [] →
       (buildPackageAt d store none).1 = none ∧
       ∀ prior, (buildPackageAt d store prior).1 = prior) ∧
    (missingRefs d store = [] →
       ∀ prior, (buildPackageAt d store prior).1 =
         some ((descEntryName, .descDoc (writeDescription d)) :: okEntries d store)) := by
  have hc := collectEntries_derived d store
  constructor
  · intro hne
    have hie : (missingRefs d store).isEmpty = false := by
      cases hmr : missingRefs d store with
      | nil => exact absurd hmr hne
      | cons a l => rfl
    exact ⟨by simp [buildPackageAt, hc, hie], fun prior => by simp [buildPackageAt, hc, hie]⟩
  · intro hm prior
    simp [buildPackageAt, hc, hm]

/-- Witness: packaging the A-B-C description against a store missing B leaves
an empty target path empty. -/
theorem build_package_atomicity_witness :
    (buildPackageAt
      { format_version := (0, 4, 0), type := some (.str "model"),
        name := some (.str "m"), inputs := none, outputs := none,
        test_inputs := none,
        weights := some (.list [.str "A", .str "B", .str "C"]),
        attachments := none, authors := none, unrecognized := [] }
      [("A", [1]), ("C", [3])] none).1 = none :=
  ((build_package_atomicity _ _).1 (by decide)).1

end BioimageioCore
